import Mathlib

/-!
Verification of the schedule-export reconciliation pipeline.

This file gives a shallow embedding, in Lean, of the pure core of the
schedule-export repository:

* `get-schedule/utils.js` — `pad`, `formatTimeForTitle`,
  `formatDateTimeForTimezone`, `normalizeStatus`, `isEventCancelled`,
  `toGoogleEvent`;
* `get-schedule/google-calendar/add-event.js` — `deterministicIdFor`
  (SHA-256 of the natural key, hex, truncated to 40 characters),
  `normalizeEventBody`, `syncEvent`, `purgeRhinoEvents`;
* the driver loop of `get-schedule/get-schedule.js` (cancellation filter
  and the purge-then-upsert cycle).

JavaScript machine integers and `Date` arithmetic are embedded as `Nat`/`Int`
arithmetic: a `Date` value is the count of minutes from the civil epoch
1970-01-01T00:00 in the calendar's fixed named timezone (the code formats
naive local timestamps and attaches a constant `timeZone`, so a fixed-offset
reading is the faithful one, matching the spec's §3 "naive, interpreted in a
fixed named timezone").  The Google Calendar collection is embedded as a list
of events keyed by `id`; `get`/`insert`/`update`/`delete`/`list(timeMin)` get
their documented REST semantics.  `crypto.createHash("sha256")` is embedded
by a full implementation of FIPS 180-4 SHA-256 over the UTF-8 bytes of the
input string.
-/

namespace ScheduleExport

/-! ## JavaScript-flavoured string helpers -/

/-- Parse a non-empty all-digit character list as a decimal number
(accumulator form, structurally recursive so the kernel can evaluate it). -/
def decToNatAux : List Char → Nat → Option Nat
  | [], acc => some acc
  | c :: cs, acc =>
    if c.isDigit then decToNatAux cs (acc * 10 + (c.toNat - 48)) else none

/-- Parse a character list as a decimal natural number (`none` when empty or
containing a non-digit). -/
def decToNat? : List Char → Option Nat
  | [] => none
  | c :: cs => decToNatAux (c :: cs) 0

/-- `Number(s)` for the non-negative decimal strings this pipeline parses
(date fields, `HH:MM` time fields).  Unparseable text maps to `0`; the
claims only use it under parseability hypotheses. -/
def jsNumber (s : String) : Int :=
  ((decToNat? s.data).getD 0 : Nat)

/-- Does `sub` occur at the head of `l`? -/
def startsWithChars : List Char → List Char → Bool
  | [], _ => true
  | _ :: _, [] => false
  | a :: as, b :: bs => a == b && startsWithChars as bs

/-- Does `sub` occur anywhere in `l`? -/
def hasSubChars (sub : List Char) : List Char → Bool
  | [] => startsWithChars sub []
  | b :: bs => startsWithChars sub (b :: bs) || hasSubChars sub bs

theorem startsWithChars_iff :
    ∀ sub l : List Char, startsWithChars sub l = true ↔ ∃ t, sub ++ t = l := by
  intro sub
  induction sub with
  | nil => intro l; simp [startsWithChars]
  | cons a as ih =>
    intro l
    cases l with
    | nil => simp [startsWithChars]
    | cons b bs =>
      simp only [startsWithChars, Bool.and_eq_true, beq_iff_eq, ih bs,
        List.cons_append, List.cons.injEq]
      constructor
      · rintro ⟨rfl, t, rfl⟩; exact ⟨t, rfl, rfl⟩
      · rintro ⟨t, rfl, rfl⟩; exact ⟨rfl, t, rfl⟩

theorem hasSubChars_iff (sub : List Char) :
    ∀ l : List Char, hasSubChars sub l = true ↔ List.IsInfix sub l := by
  intro l
  induction l with
  | nil =>
    simp only [hasSubChars, startsWithChars_iff, List.IsInfix]
    constructor
    · rintro ⟨t, h⟩; exact ⟨[], t, h⟩
    · rintro ⟨s, t, h⟩
      rcases List.append_eq_nil.1 h with ⟨h1, h2⟩
      rcases List.append_eq_nil.1 h1 with ⟨rfl, rfl⟩
      exact ⟨t, h2⟩
  | cons b bs ih =>
    simp only [hasSubChars, Bool.or_eq_true, startsWithChars_iff, ih,
      List.IsInfix]
    constructor
    · rintro (⟨t, h⟩ | ⟨s, t, h⟩)
      · exact ⟨[], t, by simpa using h⟩
      · exact ⟨b :: s, t, by simp [h]⟩
    · rintro ⟨s, t, h⟩
      cases s with
      | nil => exact Or.inl ⟨t, by simpa using h⟩
      | cons c s2 =>
        rcases List.cons.inj h with ⟨rfl, h2⟩
        exact Or.inr ⟨s2, t, h2⟩

/-- `String.prototype.includes`: substring containment. -/
def strIncludes (s sub : String) : Bool :=
  hasSubChars sub.data s.data

theorem strIncludes_iff (s sub : String) :
    strIncludes s sub = true ↔ List.IsInfix sub.data s.data :=
  hasSubChars_iff sub.data s.data

/-- One decimal digit character. -/
def digitChar (d : Nat) : Char :=
  "0123456789".data.getD d '0'

/-- Decimal rendering of a natural number (fuel-based, kernel-computable). -/
def natToCharsAux : Nat → Nat → List Char → List Char
  | 0, _, acc => acc
  | fuel + 1, n, acc =>
    if n < 10 then digitChar n :: acc
    else natToCharsAux fuel (n / 10) (digitChar (n % 10) :: acc)

/-- `num.toString()` for a natural number. -/
def natToString (n : Nat) : String :=
  ⟨natToCharsAux (n + 1) n []⟩

/-- `num.toString()` for an integer. -/
def intToString (i : Int) : String :=
  if i < 0 then "-" ++ natToString i.natAbs else natToString i.natAbs

/-- `num.toString().padStart(2, "0")` — the `pad` helper of
`get-schedule/utils.js`. -/
def pad (num : Int) : String :=
  let s := intToString num
  if s.length < 2 then ⟨List.replicate (2 - s.length) '0' ++ s.data⟩ else s

/-- ASCII lowercasing of one character (what `String.prototype.toLowerCase`
does on the ASCII text this pipeline handles). -/
def lowerChar (c : Char) : Char :=
  ((("ABCDEFGHIJKLMNOPQRSTUVWXYZ".data).zip
      ("abcdefghijklmnopqrstuvwxyz".data)).find? (fun p => p.1 == c)
    |>.map (fun p => p.2)).getD c

/-- `s.toLowerCase()`. -/
def jsToLower (s : String) : String :=
  ⟨s.data.map lowerChar⟩

/-- `s.split(sep)` for a one-character separator (the only form the source
uses: `"/"` and `":"`). -/
def splitOnChar (sep : Char) : List Char → List (List Char)
  | [] => [[]]
  | c :: cs =>
    let r := splitOnChar sep cs
    if c == sep then [] :: r
    else
      match r with
      | [] => [[c]]
      | h :: t => (c :: h) :: t

/-- `s.split(sep)` on strings. -/
def jsSplit (s : String) (sep : Char) : List String :=
  (splitOnChar sep s.data).map (fun l => ⟨l⟩)

/-! ## SHA-256 (embedding of node's `crypto.createHash("sha256")`)

All words are `Nat`s kept below `2 ^ 32` by explicit reduction `% 4294967296`.
-/

/-- Reduce to a 32-bit word. -/
def w32 (n : Nat) : Nat := n % 4294967296

/-- 32-bit right rotation. -/
def rotr (n x : Nat) : Nat := w32 ((x >>> n) ||| (x <<< (32 - n)))

/-- SHA-256 `Σ₀`. -/
def bSig0 (x : Nat) : Nat := rotr 2 x ^^^ rotr 13 x ^^^ rotr 22 x

/-- SHA-256 `Σ₁`. -/
def bSig1 (x : Nat) : Nat := rotr 6 x ^^^ rotr 11 x ^^^ rotr 25 x

/-- SHA-256 `σ₀`. -/
def sSig0 (x : Nat) : Nat := rotr 7 x ^^^ rotr 18 x ^^^ (x >>> 3)

/-- SHA-256 `σ₁`. -/
def sSig1 (x : Nat) : Nat := rotr 17 x ^^^ rotr 19 x ^^^ (x >>> 10)

/-- SHA-256 `Ch(x,y,z)`; `¬x` is xor with `2^32 - 1`. -/
def shaCh (x y z : Nat) : Nat := (x &&& y) ^^^ ((x ^^^ 4294967295) &&& z)

/-- SHA-256 `Maj(x,y,z)`. -/
def shaMaj (x y z : Nat) : Nat := (x &&& y) ^^^ (x &&& z) ^^^ (y &&& z)

/-- The 64 SHA-256 round constants. -/
def shaK : List Nat :=
  [1116352408, 1899447441, 3049323471, 3921009573, 961987163,
   1508970993, 2453635748, 2870763221, 3624381080, 310598401,
   607225278, 1426881987, 1925078388, 2162078206, 2614888103,
   3248222580, 3835390401, 4022224774, 264347078, 604807628,
   770255983, 1249150122, 1555081692, 1996064986, 2554220882,
   2821834349, 2952996808, 3210313671, 3336571891, 3584528711,
   113926993, 338241895, 666307205, 773529912, 1294757372,
   1396182291, 1695183700, 1986661051, 2177026350, 2456956037,
   2730485921, 2820302411, 3259730800, 3345764771, 3516065817,
   3600352804, 4094571909, 275423344, 430227734, 506948616,
   659060556, 883997877, 958139571, 1322822218, 1537002063,
   1747873779, 1955562222, 2024104815, 2227730452, 2361852424,
   2428436474, 2756734187, 3204031479, 3329325298]

/-- A SHA-256 state: eight 32-bit words. -/
structure Hash8 where
  h0 : Nat
  h1 : Nat
  h2 : Nat
  h3 : Nat
  h4 : Nat
  h5 : Nat
  h6 : Nat
  h7 : Nat
  deriving Repr, DecidableEq

/-- The SHA-256 initial hash value. -/
def shaInit : Hash8 :=
  ⟨1779033703, 3144134277, 1013904242, 2773480762,
   1359893119, 2600822924, 528734635, 1541459225⟩

/-- Big-endian combination of four bytes into a word. -/
def be4 (b0 b1 b2 b3 : Nat) : Nat :=
  b0 * 16777216 + b1 * 65536 + b2 * 256 + b3

/-- The first 16 words of the message schedule, from a 64-byte block. -/
def words16 (block : List Nat) : List Nat :=
  (List.range 16).map fun i =>
    be4 (block.getD (4 * i) 0) (block.getD (4 * i + 1) 0)
        (block.getD (4 * i + 2) 0) (block.getD (4 * i + 3) 0)

/-- Extend 16 schedule words to 64. -/
def schedule (block : List Nat) : List Nat :=
  (List.range 48).foldl
    (fun w _ =>
      let n := w.length
      w ++ [w32 (sSig1 (w.getD (n - 2) 0) + w.getD (n - 7) 0 +
                 sSig0 (w.getD (n - 15) 0) + w.getD (n - 16) 0)])
    (words16 block)

/-- One SHA-256 round. -/
def shaRound (st : Nat × Nat × Nat × Nat × Nat × Nat × Nat × Nat)
    (wk : Nat × Nat) : Nat × Nat × Nat × Nat × Nat × Nat × Nat × Nat :=
  match st, wk with
  | (a, b, c, d, e, f, g, h), (w, k) =>
    let t1 := w32 (h + bSig1 e + shaCh e f g + k + w)
    let t2 := w32 (bSig0 a + shaMaj a b c)
    (w32 (t1 + t2), a, b, c, w32 (d + t1), e, f, g)

/-- Compress one 64-byte block into the running hash. -/
def compressBlock (H : Hash8) (block : List Nat) : Hash8 :=
  let st0 := (H.h0, H.h1, H.h2, H.h3, H.h4, H.h5, H.h6, H.h7)
  let st := ((schedule block).zip shaK).foldl shaRound st0
  match st with
  | (a, b, c, d, e, f, g, h) =>
    ⟨w32 (H.h0 + a), w32 (H.h1 + b), w32 (H.h2 + c), w32 (H.h3 + d),
     w32 (H.h4 + e), w32 (H.h5 + f), w32 (H.h6 + g), w32 (H.h7 + h)⟩

/-- Split a byte list into 64-byte chunks (structural recursion on a fuel
bound so the definition reduces inside the kernel; the fuel `l.length` always
suffices because every step consumes at least one element). -/
def chunks64Aux : Nat → List Nat → List (List Nat)
  | _, [] => []
  | 0, _ => []
  | fuel + 1, l => l.take 64 :: chunks64Aux fuel (l.drop 64)

/-- Split a byte list into 64-byte chunks. -/
def chunks64 (l : List Nat) : List (List Nat) :=
  chunks64Aux l.length l

/-- SHA-256 padding: append `0x80`, zeros to 56 mod 64, then the 8-byte
big-endian bit length. -/
def shaPad (msg : List Nat) : List Nat :=
  let len := msg.length
  let zeros := (120 - ((len + 1) % 64)) % 64
  let L := len * 8
  msg ++ [0x80] ++ List.replicate zeros 0 ++
    [(L >>> 56) % 256, (L >>> 48) % 256, (L >>> 40) % 256, (L >>> 32) % 256,
     (L >>> 24) % 256, (L >>> 16) % 256, (L >>> 8) % 256, L % 256]

/-- SHA-256 of a byte sequence, as eight words. -/
def sha256words (msg : List Nat) : Hash8 :=
  (chunks64 (shaPad msg)).foldl compressBlock shaInit

/-- One lowercase hex digit (argument already reduced below 16 by callers). -/
def hexDigit (n : Nat) : Char :=
  "0123456789abcdef".data.getD n '0'

/-- Eight hex characters of one 32-bit word, most significant nibble first. -/
def wordHex (w : Nat) : List Char :=
  [hexDigit ((w >>> 28) % 16), hexDigit ((w >>> 24) % 16),
   hexDigit ((w >>> 20) % 16), hexDigit ((w >>> 16) % 16),
   hexDigit ((w >>> 12) % 16), hexDigit ((w >>> 8) % 16),
   hexDigit ((w >>> 4) % 16), hexDigit (w % 16)]

/-- The 64-character lowercase hex digest of SHA-256. -/
def sha256hexChars (msg : List Nat) : List Char :=
  let H := sha256words msg
  wordHex H.h0 ++ wordHex H.h1 ++ wordHex H.h2 ++ wordHex H.h3 ++
  wordHex H.h4 ++ wordHex H.h5 ++ wordHex H.h6 ++ wordHex H.h7

/-- UTF-8 encoding of one code point (node's default encoding for
`hash.update(string)`). -/
def utf8Encode (c : Nat) : List Nat :=
  if c < 0x80 then [c]
  else if c < 0x800 then
    [0xC0 ||| (c >>> 6), 0x80 ||| (c &&& 0x3F)]
  else if c < 0x10000 then
    [0xE0 ||| (c >>> 12), 0x80 ||| ((c >>> 6) &&& 0x3F), 0x80 ||| (c &&& 0x3F)]
  else
    [0xF0 ||| (c >>> 18), 0x80 ||| ((c >>> 12) &&& 0x3F),
     0x80 ||| ((c >>> 6) &&& 0x3F), 0x80 ||| (c &&& 0x3F)]

/-- UTF-8 bytes of a string. -/
def utf8Bytes (s : String) : List Nat :=
  s.data.flatMap fun ch => utf8Encode ch.toNat

/-- `deterministicIdFor` of `google-calendar/add-event.js`: SHA-256 of the
row id, hex, truncated to the first 40 characters (`ID_LENGTH`). -/
def deterministicIdFor (rowId : String) : String :=
  ⟨(sha256hexChars (utf8Bytes rowId)).take 40⟩

end ScheduleExport

namespace ScheduleExport

/-! ## Civil-calendar arithmetic (embedding of the JavaScript `Date` object)

A `Date` is identified with the number of minutes since 1970-01-01T00:00 in
the calendar's fixed timezone (`Int`).  The civil (proleptic Gregorian)
conversions follow the standard era-based algorithms; `daysFromCivil` is what
`new Date(year, month - 1, day, hours, minutes)` computes, and the getters
`getFullYear`/`getMonth`/`getDate`/`getHours`/`getMinutes` recover the civil
fields of an instant. -/

/-- Days from the civil epoch 1970-01-01 of the date `(y, m, d)` — the
day-number normalization performed by `new Date(year, month - 1, day, ...)`
(valid for `1 ≤ m ≤ 12`; `d` may be arbitrary, matching `Date` day
overflow). -/
def daysFromCivil (y m d : Int) : Int :=
  let y1 := y - (if m ≤ 2 then 1 else 0)
  let era := y1 / 400
  let yoe := y1 - era * 400
  let mp := (m + 9) % 12
  let doy := (153 * mp + 2) / 5 + d - 1
  let doe := yoe * 365 + yoe / 4 - yoe / 100 + doy
  era * 146097 + doe - 719468

/-- Civil date `(y, m, d)` of a day count from the epoch (the conversion
behind the `Date` getters; month is 1-based here, so it models
`getMonth() + 1`). -/
def civilFromDays (z : Int) : Int × Int × Int :=
  let z1 := z + 719468
  let era := z1 / 146097
  let doe := z1 - era * 146097
  let yoe := (doe - doe / 1460 + doe / 36524 - doe / 146096) / 365
  let y := yoe + era * 400
  let doy := doe - (365 * yoe + yoe / 4 - yoe / 100)
  let mp := (5 * doy + 2) / 153
  let d := doy - (153 * mp + 2) / 5 + 1
  let m := (mp + 2) % 12 + 1
  (y + (if m ≤ 2 then 1 else 0), m, d)

set_option maxHeartbeats 4000000 in
/-- Range facts about the year-of-era extraction inside `civilFromDays`:
the computed year-of-era lies in `[0, 399]` and the day-of-year offset in
`[0, 365]`. -/
theorem yoe_doy_bounds (doe : Int) (h0 : 0 ≤ doe) (h1 : doe ≤ 146096) :
    0 ≤ (doe - doe/1460 + doe/36524 - doe/146096)/365 ∧
    (doe - doe/1460 + doe/36524 - doe/146096)/365 ≤ 399 ∧
    0 ≤ doe - (365*((doe - doe/1460 + doe/36524 - doe/146096)/365) +
        ((doe - doe/1460 + doe/36524 - doe/146096)/365)/4 -
        ((doe - doe/1460 + doe/36524 - doe/146096)/365)/100) ∧
    doe - (365*((doe - doe/1460 + doe/36524 - doe/146096)/365) +
        ((doe - doe/1460 + doe/36524 - doe/146096)/365)/4 -
        ((doe - doe/1460 + doe/36524 - doe/146096)/365)/100) ≤ 365 := by
  have hb : 0 ≤ doe/1460 ∧ doe/1460 ≤ 100 := by omega
  have hf : 0 ≤ doe/36524 ∧ doe/36524 ≤ 4 := by omega
  set e := doe/1460 with hE
  set f := doe/36524 with hF
  clear_value e f
  obtain ⟨he0, he1⟩ := hb
  obtain ⟨hf0, hf1⟩ := hf
  interval_cases e <;> interval_cases f <;> omega

/-- Generalized day-number round trip, with every intermediate quantity of
`civilFromDays` named by an equation hypothesis. -/
theorem roundtrip_aux (z z1 era doe yoe doy mp dd m : Int)
    (hz1 : z1 = z + 719468) (hera : era = z1/146097) (hdoe : doe = z1 - era*146097)
    (hyoe : yoe = (doe - doe/1460 + doe/36524 - doe/146096)/365)
    (hdoy : doy = doe - (365*yoe + yoe/4 - yoe/100))
    (hmp : mp = (5*doy + 2)/153) (hdd : dd = doy - (153*mp + 2)/5 + 1)
    (hm : m = (mp + 2) % 12 + 1) :
    daysFromCivil (yoe + era*400 + (if m ≤ 2 then 1 else 0)) m dd = z := by
  have hB := yoe_doy_bounds doe (by omega) (by omega)
  rw [← hyoe] at hB
  have hkey : (m + 9) % 12 = mp := by omega
  simp only [daysFromCivil, hkey]
  have hyb : 0 ≤ yoe ∧ yoe ≤ 399 := ⟨hB.1, hB.2.1⟩
  by_cases hmle : m ≤ 2 <;>
    simp only [hmle, if_true, if_false, reduceIte] <;>
    [rw [show yoe + era * 400 + 1 - 1 = yoe + era * 400 by ring];
     rw [show yoe + era * 400 + 0 - 0 = yoe + era * 400 by ring]] <;>
    rw [show (yoe + era * 400) / 400 = era by omega] <;>
    rw [show yoe + era * 400 - era * 400 = yoe by ring] <;>
    omega

/-- Day-number → civil date → day-number is the identity. -/
theorem daysFromCivil_civilFromDays (z : Int) :
    daysFromCivil (civilFromDays z).1 (civilFromDays z).2.1 (civilFromDays z).2.2 = z :=
  roundtrip_aux z _ _ _ _ _ _ _ _ rfl rfl rfl rfl rfl rfl rfl rfl

/-- `date.getFullYear()` for an instant in minutes. -/
def getFullYear (t : Int) : Int := (civilFromDays (t / 1440)).1

/-- `date.getMonth() + 1` (1-based month) for an instant in minutes. -/
def getMonthNum (t : Int) : Int := (civilFromDays (t / 1440)).2.1

/-- `date.getDate()` (day of month) for an instant in minutes. -/
def getDate (t : Int) : Int := (civilFromDays (t / 1440)).2.2

/-- `date.getHours()` for an instant in minutes. -/
def getHours (t : Int) : Int := (t % 1440) / 60

/-- `date.getMinutes()` for an instant in minutes. -/
def getMinutes (t : Int) : Int := t % 60

/-- The instant, in minutes from the epoch, of civil fields
`(y, m, d, h, mi)` — what `new Date(y, m - 1, d, h, mi)` denotes. -/
def minutesOfCivil (y m d h mi : Int) : Int :=
  daysFromCivil y m d * 1440 + h * 60 + mi

/-- The `Date` getters recover the instant: reading an instant's civil
fields and recombining them yields the same instant. -/
theorem minutesOfCivil_getters (t : Int) :
    minutesOfCivil (getFullYear t) (getMonthNum t) (getDate t)
      (getHours t) (getMinutes t) = t := by
  have h := daysFromCivil_civilFromDays (t / 1440)
  simp only [minutesOfCivil, getFullYear, getMonthNum, getDate, getHours,
    getMinutes, h]
  omega

/-- Hour and minute getters stay in range. -/
theorem getHours_getMinutes_range (t : Int) :
    0 ≤ getHours t ∧ getHours t < 24 ∧ 0 ≤ getMinutes t ∧ getMinutes t < 60 := by
  simp only [getHours, getMinutes]
  omega

/-! ## `get-schedule/utils.js` -/

/-- A normalized scraped row (the object literal built in
`get-schedule/get-schedule.js`).  All text fields are strings; the scraper
always produces them (possibly empty), so they are total here. -/
structure ScheduleEntry where
  date : String
  callTime : String
  «show» : String
  venue : String
  location : String
  client : String
  type : String
  position : String
  details : String
  status : String
  notes : String
  isCallCancelled : Bool
  deriving Repr, DecidableEq

/-- `formatTimeForTitle` of `utils.js`: `"08:00" -> "8am"`,
`"19:00" -> "7pm"`, `"12:00" -> "12pm"`; minutes shown unless `:00`. -/
def formatTimeForTitle (timeStr : String) : String :=
  let hours := jsNumber ((jsSplit timeStr ':').getD 0 "")
  let minutes := jsNumber ((jsSplit timeStr ':').getD 1 "")
  let hour12 := if hours % 12 == 0 then 12 else hours % 12
  let ampm := if hours < 12 then "am" else "pm"
  if minutes == 0 then intToString hour12 ++ ampm
  else intToString hour12 ++ ":" ++ pad minutes ++ ampm

/-- `formatDateTimeForTimezone` of `utils.js`: renders
`YYYY-MM-DDTHH:mm:00` (the timezone argument does not appear in the output;
it is attached separately by `normalizeEventBody`). -/
def formatDateTimeForTimezone (year month day hours minutes : Int) : String :=
  intToString year ++ "-" ++ pad month ++ "-" ++ pad day ++ "T" ++
    pad hours ++ ":" ++ pad minutes ++ ":00"

/-- `normalizeStatus` of `utils.js`. -/
def normalizeStatus (status : String) : String :=
  if status == "" then "confirmed"
  else
    let lower := jsToLower status
    if lower == "called" then "tentative"
    else if lower == "cancelled" || lower == "canceled" then "cancelled"
    else if lower == "tentative" then "tentative"
    else "confirmed"

/-- `isEventCancelled` of `utils.js`. -/
def isEventCancelled (entry : ScheduleEntry) : Bool :=
  if entry.isCallCancelled then true
  else if strIncludes (jsToLower entry.«show») "cancelled" then true
  else if strIncludes (jsToLower entry.status) "called out" then true
  else false

/-- The API-ready event object returned by `toGoogleEvent`. -/
structure CalendarEvent where
  summary : String
  location : String
  description : String
  start : String
  «end» : String
  status : String
  rowId : String
  deriving Repr, DecidableEq

/-- The instant (minutes from epoch) denoted by an entry's parsed
`date`/`callTime` fields — the `callTimeDate` value inside `toGoogleEvent`
(`new Date(year, month - 1, day, hours, minutes)`). -/
def parsedCallMinutes (entry : ScheduleEntry) : Int :=
  let month := jsNumber ((jsSplit entry.date '/').getD 0 "")
  let day := jsNumber ((jsSplit entry.date '/').getD 1 "")
  let year := jsNumber ((jsSplit entry.date '/').getD 2 "")
  let hours := jsNumber ((jsSplit entry.callTime ':').getD 0 "")
  let minutes := jsNumber ((jsSplit entry.callTime ':').getD 1 "")
  minutesOfCivil year month day hours minutes

/-- `Array.prototype.join(sep)`. -/
def jsJoin (sep : String) : List String → String
  | [] => ""
  | [a] => a
  | a :: rest => a ++ sep ++ jsJoin sep rest

/-- `toGoogleEvent` of `utils.js`. -/
def toGoogleEvent (entry : ScheduleEntry) : CalendarEvent :=
  let callTimeDate := parsedCallMinutes entry
  let startDate := callTimeDate - 30
  let endDate := callTimeDate + 300
  let startStr := formatDateTimeForTimezone (getFullYear startDate)
    (getMonthNum startDate) (getDate startDate) (getHours startDate)
    (getMinutes startDate)
  let endStr := formatDateTimeForTimezone (getFullYear endDate)
    (getMonthNum endDate) (getDate endDate) (getHours endDate)
    (getMinutes endDate)
  let rowId := jsJoin " | "
    [entry.date, entry.callTime, entry.«show», entry.venue, entry.position,
     entry.type]
  let isCalled := jsToLower entry.status == "called"
  let showTitle := if isCalled then "UNCONFIRMED => " ++ entry.«show»
    else entry.«show»
  let startTimeStr := pad (getHours startDate) ++ ":" ++ pad (getMinutes startDate)
  let formattedTime := formatTimeForTitle startTimeStr
  let summary := if isCalled then showTitle else formattedTime ++ " " ++ showTitle
  { summary := summary
    location := jsJoin " - "
      ([entry.venue, entry.location].filter (fun s => s != ""))
    description := jsJoin " | "
      ([entry.details, entry.notes].filter (fun s => s != ""))
    start := startStr
    «end» := endStr
    status := normalizeStatus entry.status
    rowId := rowId }

end ScheduleExport

namespace ScheduleExport

/-! ## State model of `google-calendar/add-event.js`

The remote calendar is a list of events keyed by `id` (Google keeps ids
unique; where a proof needs that, it is an explicit `Nodup` hypothesis).
Event start/end instants are abstracted to `Nat` timestamps, which is
faithful because the code only ever compares them to `now` through the API's
`timeMin` filter.  In this state model the only failure a `get`/`delete` can
produce is `404 Not Found`, determined by the state itself; transient
failures of the remote transport are modelled separately by the
control-flow functions below. -/

/-- The stored body of a remote event, as built by `normalizeEventBody`:
display fields, timestamps, status and the `extendedProperties.private.rhinoRowId`
owner tag (`""` models an absent tag — the code tests the tag with JS
truthiness, under which the empty string is false). -/
structure EventBody where
  summary : String
  location : String
  description : String
  start : Nat
  «end» : Nat
  status : String
  rhinoRowId : String
  deriving Repr, DecidableEq

/-- A remote calendar event: a remote id plus its body. -/
structure GEvent where
  id : String
  body : EventBody
  deriving Repr, DecidableEq

/-- The remote calendar collection. -/
abbrev CalState := List GEvent

/-- The desired-event argument of `syncEvent`
(`{ summary, location, description, start, end, status, rowId }`). -/
structure DesiredEvent where
  summary : String
  location : String
  description : String
  start : Nat
  «end» : Nat
  status : String
  rowId : String
  deriving Repr, DecidableEq

/-- `normalizeEventBody` of `add-event.js`: `x || ""` is the identity on
strings, `event.status || "confirmed"` defaults the empty status, and
`String(event.rowId || "")` is the identity on a string `rowId`. -/
def normalizeEventBody (event : DesiredEvent) : EventBody :=
  { summary := event.summary
    location := event.location
    description := event.description
    start := event.start
    «end» := event.«end»
    status := if event.status == "" then "confirmed" else event.status
    rhinoRowId := event.rowId }

/-- `calendar.events.get({eventId})`: the event with that id, if any. -/
def getEv (s : CalState) (eventId : String) : Option GEvent :=
  s.find? (fun e => e.id == eventId)

/-- `calendar.events.delete({eventId})`: `none` models a `404 Not Found`
failure; on success the event with that id is removed. -/
def deleteEv (s : CalState) (eventId : String) : Option CalState :=
  if (getEv s eventId).isSome then
    some (s.filter (fun e => e.id != eventId))
  else none

/-- `calendar.events.update({eventId, requestBody})`: full overwrite of the
body of the event with that id; the remote id does not change. -/
def updateEv (s : CalState) (eventId : String) (b : EventBody) : CalState :=
  s.map (fun e => if e.id == eventId then ⟨eventId, b⟩ else e)

/-- `calendar.events.list({timeMin: now, ...})`: the future events of the
collection (events starting strictly after `now`), in stored order. -/
def listFuture (now : Nat) (s : CalState) : List GEvent :=
  s.filter (fun e => decide (now < e.body.start))

/-- The state effect of `syncEvent` of `add-event.js`: `GET` by the
deterministic id; if found, update in place, otherwise insert a new event
under the deterministic id.  (In the state model the get/update/insert calls
cannot fail transiently; `syncEventCtl` below models those paths.) -/
def syncEvent (s : CalState) (event : DesiredEvent) : CalState :=
  let eventId := deterministicIdFor event.rowId
  let requestBody := normalizeEventBody event
  match getEv s eventId with
  | some _ => updateEv s eventId requestBody
  | none => s ++ [⟨eventId, requestBody⟩]

/-- The upsert loop of `getSchedule`: `for (const event of googleEvents)
await addEvent(auth, event)`, where `addEvent` delegates to `syncEvent`. -/
def syncAll (s : CalState) (events : List DesiredEvent) : CalState :=
  events.foldl syncEvent s

/-- The loop body of `purgeRhinoEvents` over the snapshot list of future
rhino-tagged events: delete by the deterministic id of the stored row id;
on `404`, fall back to deleting the event's own remote id; a failure of the
fallback delete is propagated (here necessarily a `404`, reported with the
state as mutated so far — a thrown JS error does not undo earlier
deletions). -/
def purgeLoop : CalState → List GEvent → CalState × Option Nat
  | s, [] => (s, none)
  | s, ev :: rest =>
    match deleteEv s (deterministicIdFor ev.body.rhinoRowId) with
    | some s1 => purgeLoop s1 rest
    | none =>
      match deleteEv s ev.id with
      | some s1 => purgeLoop s1 rest
      | none => (s, some 404)

/-- `purgeRhinoEvents` of `add-event.js`: list future events, filter to
those carrying a truthy `rhinoRowId` owner tag, then run the delete loop.
Returns the final state together with `some code` if the loop raised. -/
def purgeRhinoEvents (now : Nat) (s : CalState) : CalState × Option Nat :=
  purgeLoop s ((listFuture now s).filter (fun e => e.body.rhinoRowId != ""))

/-- One reconcile cycle of the driver (`get-schedule.js`): `purgeRhinoEvents`
followed by the per-event upsert loop; a purge failure aborts the cycle. -/
def runCycle (now : Nat) (s : CalState) (events : List DesiredEvent) :
    CalState × Option Nat :=
  match purgeRhinoEvents now s with
  | (s1, none) => (syncAll s1 events, none)
  | (s1, some code) => (s1, some code)

/-! ## Control-flow model of the error paths

`syncEventCtl` and `purgeDeleteStepCtl` embed the `try`/`catch` structure of
`syncEvent` and of one `purgeRhinoEvents` loop iteration as total functions
of the outcomes of the underlying REST calls.  An outcome is `ok` or
`err code` (code `404` is "not found"); any other code stands for the other
failures the spec names (rate limit, validation, 5xx, auth). -/

/-- Outcome of one remote REST call. -/
inductive CallRes where
  | ok : CallRes
  | err : Nat → CallRes
  deriving Repr, DecidableEq

/-- The action string of the result object returned by `syncEvent`, as a
function of the outcomes of its `get`, `update` and `insert` calls
(`updR` is consulted only if the get succeeds, `insR` only on the insert
path).  The single `catch (err)` block around both `get` and `update` sends
any `404` to the insert path and every other failure to the
`{action: "error"}` result; the inner `catch` around `insert` returns
`{action: "error"}` for any insert failure.  Every path returns a value —
the function never throws. -/
def syncEventCtl (getR updR insR : CallRes) : String :=
  match getR with
  | .ok =>
    match updR with
    | .ok => "updated"
    | .err c =>
      if c == 404 then
        match insR with
        | .ok => "created"
        | .err _ => "error"
      else "error"
  | .err c =>
    if c == 404 then
      match insR with
      | .ok => "created"
      | .err _ => "error"
    else "error"

/-- The per-event upsert loop of `getSchedule` (lines 258-264): each desired
event is processed in turn and produces a result; one event's error result
does not remove later events from the batch. -/
def syncBatchCtl (oracle : List (CallRes × CallRes × CallRes)) : List String :=
  oracle.map (fun o => syncEventCtl o.1 o.2.1 o.2.2)

/-- One delete iteration of `purgeRhinoEvents`, as a function of the outcome
of the deterministic-id delete (`del1`) and of the fallback delete by the
event's own id (`del2`, consulted only when `del1` fails with `404`):
`none` means the iteration completed, `some code` that it raised `code`. -/
def purgeDeleteStepCtl (del1 del2 : CallRes) : Option Nat :=
  match del1 with
  | .ok => none
  | .err c =>
    if c == 404 then
      match del2 with
      | .ok => none
      | .err c2 => some c2
    else some c

/-- The purge loop over its snapshot list: the first iteration that raises
aborts the loop and propagates its error code. -/
def purgeLoopCtl : List (CallRes × CallRes) → Option Nat
  | [] => none
  | (d1, d2) :: rest =>
    match purgeDeleteStepCtl d1 d2 with
    | none => purgeLoopCtl rest
    | some c => some c

end ScheduleExport

namespace ScheduleExport

/-! ## Reconciliation lemmas -/

/-- A desired event's image on the remote calendar: the deterministic id
paired with its normalized body. -/
def mkRhinoEvent (d : DesiredEvent) : GEvent :=
  ⟨deterministicIdFor d.rowId, normalizeEventBody d⟩

/-- The purge predicate: an event is future (starts after `now`) and carries
a truthy owner tag. -/
def isFutureTagged (now : Nat) (e : GEvent) : Bool :=
  decide (now < e.body.start) && e.body.rhinoRowId != ""

theorem id_inj {s : CalState} (h : (s.map GEvent.id).Nodup) {e e' : GEvent}
    (he : e ∈ s) (he' : e' ∈ s) (hid : e.id = e'.id) : e = e' :=
  List.inj_on_of_nodup_map h he he' hid

theorem getEv_eq_none {s : CalState} {i : String} :
    getEv s i = none ↔ ∀ e ∈ s, e.id ≠ i := by
  simp [getEv, List.find?_eq_none]

theorem getEv_append_none {p q : CalState} {i : String}
    (h : getEv p i = none) : getEv (p ++ q) i = getEv q i := by
  unfold getEv at h ⊢
  rw [List.find?_append, h]
  rfl

theorem getEv_mem_isSome {s : CalState} {e : GEvent} (he : e ∈ s) :
    (getEv s e.id).isSome := by
  induction s with
  | nil => cases he
  | cons a t ih =>
    rcases List.mem_cons.1 he with rfl | he
    · simp [getEv, List.find?_cons]
    · by_cases h : (a.id == e.id) = true
      · simp [getEv, List.find?_cons, h]
      · simpa [getEv, List.find?_cons, h] using ih he

theorem deleteEv_of_mem {s : CalState} {e : GEvent} (he : e ∈ s) :
    deleteEv s e.id = some (s.filter (fun x => x.id != e.id)) := by
  simp [deleteEv, getEv_mem_isSome he]

theorem purgeLoop_clean :
    ∀ (L : List GEvent) (s : CalState),
      (s.map GEvent.id).Nodup →
      (L.map GEvent.id).Nodup →
      (∀ ev ∈ L, ev ∈ s ∧ ev.id = deterministicIdFor ev.body.rhinoRowId) →
      purgeLoop s L =
        (s.filter (fun e => !((L.map GEvent.id).contains e.id)), none) := by
  intro L
  induction L with
  | nil =>
    intro s _ _ _
    simp [purgeLoop]
  | cons ev rest ih =>
    intro s hs hL hmem
    obtain ⟨hev, hid⟩ := hmem ev (List.mem_cons_self ev rest)
    have hdel : deleteEv s (deterministicIdFor ev.body.rhinoRowId) =
        some (s.filter (fun x => x.id != ev.id)) := by
      rw [← hid]; exact deleteEv_of_mem hev
    have hLr : ((ev :: rest).map GEvent.id).Nodup := hL
    simp only [List.map_cons, List.nodup_cons] at hLr
    have hrec := ih (s.filter (fun x => x.id != ev.id))
      ((List.filter_sublist s |>.map GEvent.id).nodup hs)
      hLr.2
      (by
        intro e he
        obtain ⟨hes, heid⟩ := hmem e (List.mem_cons_of_mem ev he)
        refine ⟨List.mem_filter.2 ⟨hes, ?_⟩, heid⟩
        have hne : e.id ≠ ev.id := by
          intro hcontra
          exact hLr.1 (hcontra ▸ List.mem_map_of_mem GEvent.id he)
        simpa [bne_iff_ne] using hne)
    simp only [purgeLoop, hdel]
    rw [hrec]
    rw [List.filter_filter]
    refine congrArg (fun l => (l, (none : Option Nat))) ?_
    apply List.filter_congr
    intro e _
    simp only [List.map_cons, List.contains_cons, Bool.not_or, bne]
    rw [Bool.and_comm]

theorem purgeRhino_clean (now : Nat) (s : CalState)
    (hnd : (s.map GEvent.id).Nodup)
    (hclean : ∀ e ∈ s, now < e.body.start → e.body.rhinoRowId ≠ "" →
      e.id = deterministicIdFor e.body.rhinoRowId) :
    purgeRhinoEvents now s =
      (s.filter (fun e => !(isFutureTagged now e)), none) := by
  unfold purgeRhinoEvents
  have hL : (listFuture now s).filter (fun e => e.body.rhinoRowId != "") =
      s.filter (isFutureTagged now) := by
    unfold listFuture
    rw [List.filter_filter]
    apply List.filter_congr
    intro e _
    simp [isFutureTagged, Bool.and_comm]
  rw [hL]
  have hsubnd : ((s.filter (isFutureTagged now)).map GEvent.id).Nodup :=
    (List.filter_sublist s |>.map GEvent.id).nodup hnd
  rw [purgeLoop_clean (s.filter (isFutureTagged now)) s hnd hsubnd ?hm]
  case hm =>
    intro ev hev
    have h1 := List.mem_filter.1 hev
    have hFT := h1.2
    simp only [isFutureTagged, Bool.and_eq_true, decide_eq_true_eq,
      bne_iff_ne, ne_eq] at hFT
    exact ⟨h1.1, hclean ev h1.1 hFT.1 hFT.2⟩
  refine congrArg (fun l => (l, (none : Option Nat))) ?_
  apply List.filter_congr
  intro e he
  have : ((s.filter (isFutureTagged now)).map GEvent.id).contains e.id =
      isFutureTagged now e := by
    cases hFT : isFutureTagged now e with
    | true =>
      have hmm : e.id ∈ (s.filter (isFutureTagged now)).map GEvent.id :=
        List.mem_map_of_mem GEvent.id (List.mem_filter.2 ⟨he, hFT⟩)
      rw [List.contains_eq_any_beq, List.any_eq_true]
      exact ⟨e.id, hmm, by simp⟩
    | false =>
      by_contra hc
      simp only [Bool.not_eq_false] at hc
      rw [List.contains_eq_any_beq, List.any_eq_true] at hc
      obtain ⟨i2, hi2, heq⟩ := hc
      obtain ⟨e2, he2, rfl⟩ := List.mem_map.1 hi2
      have he2f := List.mem_filter.1 he2
      have : e = e2 := id_inj hnd he he2f.1 (by simpa using heq)
      rw [this, he2f.2] at hFT
      cases hFT
  rw [this]

end ScheduleExport

namespace ScheduleExport

theorem syncAll_nil (s : CalState) : syncAll s [] = s := rfl

theorem syncAll_cons (s : CalState) (d : DesiredEvent) (D : List DesiredEvent) :
    syncAll s (d :: D) = syncAll (syncEvent s d) D := rfl

theorem syncEvent_none {s : CalState} {d : DesiredEvent}
    (h : getEv s (deterministicIdFor d.rowId) = none) :
    syncEvent s d = s ++ [mkRhinoEvent d] := by
  simp [syncEvent, h, mkRhinoEvent]

theorem syncEvent_some {s : CalState} {d : DesiredEvent} {x : GEvent}
    (h : getEv s (deterministicIdFor d.rowId) = some x) :
    syncEvent s d =
      updateEv s (deterministicIdFor d.rowId) (normalizeEventBody d) := by
  simp [syncEvent, h]

theorem updateEv_map_id (q : CalState) (i : String) (b : EventBody) :
    (updateEv q i b).map GEvent.id = q.map GEvent.id := by
  unfold updateEv
  rw [List.map_map]
  refine List.map_congr_left ?_
  intro a _
  by_cases h : (a.id == i) = true
  · simp [Function.comp, h, (beq_iff_eq.1 h).symm]
  · simp [Function.comp, h]

theorem updateEv_not_mem {p : CalState} {i : String} {b : EventBody}
    (h : ∀ e ∈ p, e.id ≠ i) : updateEv p i b = p := by
  induction p with
  | nil => rfl
  | cons e t ih =>
    have he : e.id ≠ i := h e (List.mem_cons_self e t)
    simp only [updateEv, List.map_cons]
    rw [if_neg (by simpa using he)]
    have := ih (fun x hx => h x (List.mem_cons_of_mem e hx))
    simp only [updateEv] at this
    rw [this]

theorem updateEv_append (p q : CalState) (i : String) (b : EventBody) :
    updateEv (p ++ q) i b = updateEv p i b ++ updateEv q i b :=
  List.map_append _ p q

theorem syncAll_append (D : List DesiredEvent) :
    ∀ p q : CalState,
      (∀ d ∈ D, deterministicIdFor d.rowId ∉ p.map GEvent.id) →
      syncAll (p ++ q) D = p ++ syncAll q D := by
  induction D with
  | nil => intro p q _; rfl
  | cons d D ih =>
    intro p q hp
    have hip : getEv p (deterministicIdFor d.rowId) = none :=
      getEv_eq_none.2 (fun e he heq =>
        hp d (List.mem_cons_self d D) (heq ▸ List.mem_map_of_mem GEvent.id he))
    have hp' : ∀ d' ∈ D, deterministicIdFor d'.rowId ∉ p.map GEvent.id :=
      fun d' hd' => hp d' (List.mem_cons_of_mem d hd')
    rw [syncAll_cons, syncAll_cons]
    rcases hq : getEv q (deterministicIdFor d.rowId) with _ | x
    · have hpq : getEv (p ++ q) (deterministicIdFor d.rowId) = none := by
        rw [getEv_append_none hip, hq]
      rw [syncEvent_none hpq, syncEvent_none hq, List.append_assoc]
      exact ih p (q ++ [mkRhinoEvent d]) hp'
    · have hpq : getEv (p ++ q) (deterministicIdFor d.rowId) = some x := by
        rw [getEv_append_none hip, hq]
      rw [syncEvent_some hpq, syncEvent_some hq, updateEv_append,
        updateEv_not_mem (p := p) (fun e he heq =>
          hp d (List.mem_cons_self d D)
            (by rw [← heq]; exact List.mem_map_of_mem GEvent.id he))]
      exact ih p (updateEv q (deterministicIdFor d.rowId) (normalizeEventBody d)) hp'

end ScheduleExport

namespace ScheduleExport

theorem updateEv_cons_pos {e : GEvent} {t : CalState} {i : String}
    {b : EventBody} (he : (e.id == i) = true) :
    updateEv (e :: t) i b = ⟨i, b⟩ :: updateEv t i b := by
  simp only [updateEv, List.map_cons, if_pos he]

theorem updateEv_cons_neg {e : GEvent} {t : CalState} {i : String}
    {b : EventBody} (he : (e.id == i) = false) :
    updateEv (e :: t) i b = e :: updateEv t i b := by
  simp only [updateEv, List.map_cons]
  rw [if_neg (by simp [he])]

theorem getEv_updateEv {s : CalState} {i : String} (b : EventBody)
    (h : (getEv s i).isSome) :
    getEv (updateEv s i b) i = some ⟨i, b⟩ := by
  induction s with
  | nil => simp [getEv] at h
  | cons e t ih =>
    by_cases he : (e.id == i) = true
    · rw [updateEv_cons_pos he]
      simp [getEv, List.find?_cons]
    · have he2 : (e.id == i) = false := by simpa using he
      rw [updateEv_cons_neg he2]
      have hh : (getEv t i).isSome := by
        simpa [getEv, List.find?_cons, he2] using h
      have hrec := ih hh
      simpa [getEv, List.find?_cons, he2] using hrec

/-- Structural invariant of the upsert loop: starting from a state whose
events are all images of desired events of `A` (with distinct ids), the loop
preserves id-uniqueness, every event of the result is the image of a desired
event of `A` or of the batch, every processed desired event's deterministic
id is present afterwards, ids are never lost, and no id outside the initial
ones and the batch's deterministic ids is created. -/
theorem syncAll_inv (D : List DesiredEvent) :
    ∀ (q : CalState) (A : List DesiredEvent),
      (q.map GEvent.id).Nodup →
      (∀ e ∈ q, ∃ d, d ∈ A ∧ e = mkRhinoEvent d) →
      ((syncAll q D).map GEvent.id).Nodup ∧
      (∀ e ∈ syncAll q D, ∃ d, (d ∈ A ∨ d ∈ D) ∧ e = mkRhinoEvent d) ∧
      (∀ d ∈ D, deterministicIdFor d.rowId ∈ (syncAll q D).map GEvent.id) ∧
      (∀ i ∈ q.map GEvent.id, i ∈ (syncAll q D).map GEvent.id) ∧
      (∀ i ∈ (syncAll q D).map GEvent.id,
        i ∈ q.map GEvent.id ∨ ∃ d ∈ D, i = deterministicIdFor d.rowId) := by
  induction D with
  | nil =>
    intro q A hnd hq
    refine ⟨hnd, ?_, by simp, fun i h => h, fun i h => Or.inl h⟩
    intro e he
    obtain ⟨d, hd, hEq⟩ := hq e he
    exact ⟨d, Or.inl hd, hEq⟩
  | cons d D ih =>
    intro q A hnd hq
    rw [syncAll_cons]
    rcases hg : getEv q (deterministicIdFor d.rowId) with _ | x
    · -- insert path
      rw [syncEvent_none hg]
      have hni : deterministicIdFor d.rowId ∉ q.map GEvent.id := by
        intro hmem
        obtain ⟨e, he, heq⟩ := List.mem_map.1 hmem
        exact getEv_eq_none.1 hg e he heq
      have hnd2 : ((q ++ [mkRhinoEvent d]).map GEvent.id).Nodup := by
        rw [List.map_append]
        rw [List.nodup_append]
        refine ⟨hnd, List.nodup_singleton _, ?_⟩
        intro a ha hb
        simp only [List.map_cons, List.map_nil, List.mem_singleton,
          mkRhinoEvent] at hb
        exact hni (hb ▸ ha)
      have hq2 : ∀ e ∈ q ++ [mkRhinoEvent d],
          ∃ d', d' ∈ A ++ [d] ∧ e = mkRhinoEvent d' := by
        intro e he
        rcases List.mem_append.1 he with h | h
        · obtain ⟨d', hd', hEq⟩ := hq e h
          exact ⟨d', List.mem_append_left _ hd', hEq⟩
        · refine ⟨d, List.mem_append_right _ (List.mem_singleton_self d), ?_⟩
          simpa using h
      obtain ⟨C1, C2, C3, C4, C5⟩ := ih (q ++ [mkRhinoEvent d]) (A ++ [d]) hnd2 hq2
      refine ⟨C1, ?_, ?_, ?_, ?_⟩
      · intro e he
        obtain ⟨d', hd', hEq⟩ := C2 e he
        rcases hd' with h | h
        · rcases List.mem_append.1 h with h | h
          · exact ⟨d', Or.inl h, hEq⟩
          · exact ⟨d', Or.inr (List.mem_singleton.1 h ▸ List.mem_cons_self d D), hEq⟩
        · exact ⟨d', Or.inr (List.mem_cons_of_mem d h), hEq⟩
      · intro d' hd'
        rcases List.mem_cons.1 hd' with rfl | h
        · apply C4
          rw [List.map_append]
          apply List.mem_append_right
          simp [mkRhinoEvent]
        · exact C3 d' h
      · intro i hi
        apply C4
        rw [List.map_append]
        exact List.mem_append_left _ hi
      · intro i hi
        rcases C5 i hi with h | ⟨d', hd', hEq⟩
        · rw [List.map_append] at h
          rcases List.mem_append.1 h with h | h
          · exact Or.inl h
          · simp only [List.map_cons, List.map_nil, List.mem_singleton,
              mkRhinoEvent] at h
            exact Or.inr ⟨d, List.mem_cons_self d D, h⟩
        · exact Or.inr ⟨d', List.mem_cons_of_mem d hd', hEq⟩
    · -- update path
      rw [syncEvent_some hg]
      have hxq : x ∈ q := List.mem_of_find?_eq_some hg
      have hxid : x.id = deterministicIdFor d.rowId := by
        have := List.find?_some hg
        simpa using this
      have hnd2 : ((updateEv q (deterministicIdFor d.rowId)
          (normalizeEventBody d)).map GEvent.id).Nodup := by
        rw [updateEv_map_id]; exact hnd
      have hq2 : ∀ e ∈ updateEv q (deterministicIdFor d.rowId)
          (normalizeEventBody d), ∃ d', d' ∈ A ++ [d] ∧ e = mkRhinoEvent d' := by
        intro e he
        obtain ⟨e0, he0, hEq⟩ := List.mem_map.1 he
        by_cases h : (e0.id == deterministicIdFor d.rowId) = true
        · rw [if_pos h] at hEq
          exact ⟨d, List.mem_append_right _ (List.mem_singleton_self d),
            hEq.symm⟩
        · rw [if_neg h] at hEq
          obtain ⟨d', hd', hEq'⟩ := hq e0 he0
          exact ⟨d', List.mem_append_left _ hd', hEq ▸ hEq'⟩
      obtain ⟨C1, C2, C3, C4, C5⟩ := ih (updateEv q (deterministicIdFor d.rowId)
        (normalizeEventBody d)) (A ++ [d]) hnd2 hq2
      refine ⟨C1, ?_, ?_, ?_, ?_⟩
      · intro e he
        obtain ⟨d', hd', hEq⟩ := C2 e he
        rcases hd' with h | h
        · rcases List.mem_append.1 h with h | h
          · exact ⟨d', Or.inl h, hEq⟩
          · exact ⟨d', Or.inr (List.mem_singleton.1 h ▸ List.mem_cons_self d D), hEq⟩
        · exact ⟨d', Or.inr (List.mem_cons_of_mem d h), hEq⟩
      · intro d' hd'
        rcases List.mem_cons.1 hd' with rfl | h
        · apply C4
          rw [updateEv_map_id]
          exact hxid ▸ List.mem_map_of_mem GEvent.id hxq
        · exact C3 d' h
      · intro i hi
        apply C4
        rwa [updateEv_map_id]
      · intro i hi
        rcases C5 i hi with h | ⟨d', hd', hEq⟩
        · rw [updateEv_map_id] at h
          exact Or.inl h
        · exact Or.inr ⟨d', List.mem_cons_of_mem d hd', hEq⟩

/-- Among remote events that are all images of desired events with distinct
ids, exactly one carries any given natural key of the batch, provided the
deterministic id is collision-free on the batch's keys. -/
theorem count_unique (D : List DesiredEvent) (q : CalState)
    (hinj : ∀ d1 ∈ D, ∀ d2 ∈ D,
      deterministicIdFor d1.rowId = deterministicIdFor d2.rowId →
      d1.rowId = d2.rowId)
    (hnd : (q.map GEvent.id).Nodup)
    (hmem : ∀ e ∈ q, ∃ d, d ∈ D ∧ e = mkRhinoEvent d)
    (hall : ∀ d ∈ D, deterministicIdFor d.rowId ∈ q.map GEvent.id)
    (k : String) (hk : ∃ d ∈ D, d.rowId = k) :
    q.countP (fun e => e.body.rhinoRowId == k) = 1 := by
  obtain ⟨d0, hd0, hk0⟩ := hk
  subst hk0
  obtain ⟨e0, he0, hid0⟩ := List.mem_map.1 (hall d0 hd0)
  obtain ⟨d1, hd1, hEq1⟩ := hmem e0 he0
  have hdet : deterministicIdFor d1.rowId = deterministicIdFor d0.rowId := by
    rw [hEq1] at hid0
    simpa [mkRhinoEvent] using hid0
  have hrow : d1.rowId = d0.rowId := hinj d1 hd1 d0 hd0 hdet
  have he0tag : e0.body.rhinoRowId = d0.rowId := by
    rw [hEq1]
    simp [mkRhinoEvent, normalizeEventBody, hrow]
  -- every member of the filtered list equals e0
  have hchar : ∀ e ∈ q.filter (fun e => e.body.rhinoRowId == d0.rowId), e = e0 := by
    intro e he
    have h1 := List.mem_filter.1 he
    have htag : e.body.rhinoRowId = d0.rowId := by simpa using h1.2
    obtain ⟨d2, hd2, hEq2⟩ := hmem e h1.1
    have htag2 : d2.rowId = d0.rowId := by
      rw [hEq2] at htag
      simpa [mkRhinoEvent, normalizeEventBody] using htag
    have hide : e.id = e0.id := by
      rw [hEq1, hEq2]
      simp [mkRhinoEvent, htag2, hrow]
    exact id_inj hnd h1.1 he0 hide
  have he0mem : e0 ∈ q.filter (fun e => e.body.rhinoRowId == d0.rowId) :=
    List.mem_filter.2 ⟨he0, by simp [he0tag]⟩
  rw [List.countP_eq_length_filter]
  rcases hfl : q.filter (fun e => e.body.rhinoRowId == d0.rowId) with _ | ⟨a, t⟩
  · exact absurd (hfl ▸ he0mem) (List.not_mem_nil e0)
  · rw [hfl]
    have hnds : ((a :: t).map GEvent.id).Nodup := by
      rw [← hfl]
      exact ((List.filter_sublist q).map GEvent.id).nodup hnd
    have ha : a = e0 := hchar a (by rw [hfl]; exact List.mem_cons_self a t)
    have ht : t = [] := by
      rcases t with _ | ⟨b, t2⟩
      · rfl
      · exfalso
        have hb : b = e0 := hchar b (by
          rw [hfl]; exact List.mem_cons_of_mem a (List.mem_cons_self b t2))
        simp only [List.map_cons, List.nodup_cons] at hnds
        exact hnds.1 (by rw [ha, hb]; exact List.mem_cons_self _ _)
    rw [ht]
    rfl

end ScheduleExport

namespace ScheduleExport

/-- Frame property of the purge loop: provided remote ids are unique and no
event outside the future-tagged set holds the deterministic id of a
future-tagged event's stored key, the loop only ever removes events —
whatever it deletes, and whether or not it aborts, every event that is not
future-and-tagged survives unchanged. -/
theorem purgeLoop_frame (now : Nat) (s : CalState)
    (hnd : (s.map GEvent.id).Nodup)
    (hcol : ∀ e ∈ s, ∀ f ∈ s, isFutureTagged now f = true →
      e.id = deterministicIdFor f.body.rhinoRowId → isFutureTagged now e = true) :
    ∀ (L : List GEvent) (cur : CalState), cur.Sublist s →
      (∀ ev ∈ L, ev ∈ s ∧ isFutureTagged now ev = true) →
      (purgeLoop cur L).1.Sublist cur ∧
      (∀ e ∈ cur, isFutureTagged now e = false → e ∈ (purgeLoop cur L).1) := by
  intro L
  induction L with
  | nil =>
    intro cur _ _
    exact ⟨List.Sublist.refl cur, fun e he _ => he⟩
  | cons ev rest ih =>
    intro cur hsub hL
    obtain ⟨hevs, hevFT⟩ := hL ev (List.mem_cons_self ev rest)
    have hLrest : ∀ e ∈ rest, e ∈ s ∧ isFutureTagged now e = true :=
      fun e he => hL e (List.mem_cons_of_mem ev he)
    have hframe1 : ∀ e ∈ cur, isFutureTagged now e = false →
        e.id ≠ deterministicIdFor ev.body.rhinoRowId := by
      intro e he hFT heq
      have : isFutureTagged now e = true :=
        hcol e (hsub.subset he) ev hevs hevFT heq
      rw [this] at hFT
      cases hFT
    have hframe2 : ∀ e ∈ cur, isFutureTagged now e = false → e.id ≠ ev.id := by
      intro e he hFT heq
      have : e = ev := id_inj hnd (hsub.subset he) hevs heq
      rw [this, hevFT] at hFT
      cases hFT
    rcases h1 : deleteEv cur (deterministicIdFor ev.body.rhinoRowId) with _ | s1
    · rcases h2 : deleteEv cur ev.id with _ | s1
      · simp only [purgeLoop, h1, h2]
        exact ⟨List.Sublist.refl cur, fun e he _ => he⟩
      · have hs1 : s1 = cur.filter (fun x => x.id != ev.id) := by
          simp only [deleteEv] at h2
          by_cases hg : (getEv cur ev.id).isSome
          · rw [if_pos hg] at h2; exact (Option.some_inj.1 h2).symm
          · rw [if_neg hg] at h2; cases h2
        have hsub1 : s1.Sublist cur := hs1 ▸ List.filter_sublist cur
        obtain ⟨R1, R2⟩ := ih s1 (hsub1.trans hsub) hLrest
        refine ⟨?_, ?_⟩
        · simp only [purgeLoop, h1, h2]
          exact R1.trans hsub1
        · intro e he hFT
          simp only [purgeLoop, h1, h2]
          apply R2 _ _ hFT
          rw [hs1]
          exact List.mem_filter.2 ⟨he, by
            simpa [bne_iff_ne] using hframe2 e he hFT⟩
    · have hs1 : s1 = cur.filter
          (fun x => x.id != deterministicIdFor ev.body.rhinoRowId) := by
        simp only [deleteEv] at h1
        by_cases hg : (getEv cur (deterministicIdFor ev.body.rhinoRowId)).isSome
        · rw [if_pos hg] at h1; exact (Option.some_inj.1 h1).symm
        · rw [if_neg hg] at h1; cases h1
      have hsub1 : s1.Sublist cur := hs1 ▸ List.filter_sublist cur
      obtain ⟨R1, R2⟩ := ih s1 (hsub1.trans hsub) hLrest
      refine ⟨?_, ?_⟩
      · simp only [purgeLoop, h1]
        exact R1.trans hsub1
      · intro e he hFT
        simp only [purgeLoop, h1]
        apply R2 _ _ hFT
        rw [hs1]
        exact List.mem_filter.2 ⟨he, by
          simpa [bne_iff_ne] using hframe1 e he hFT⟩

/-- Frame property of `purgeRhinoEvents`: under unique ids and no
deterministic-id collision onto events outside the future-tagged set, the
purge removes only future owner-tagged events; every untagged and every past
event survives unchanged, in both the successful and the aborting case. -/
theorem purgeRhino_frame (now : Nat) (s : CalState)
    (hnd : (s.map GEvent.id).Nodup)
    (hcol : ∀ e ∈ s, ∀ f ∈ s, isFutureTagged now f = true →
      e.id = deterministicIdFor f.body.rhinoRowId → isFutureTagged now e = true) :
    (purgeRhinoEvents now s).1.Sublist s ∧
    (∀ e ∈ s, isFutureTagged now e = false → e ∈ (purgeRhinoEvents now s).1) ∧
    (∀ e ∈ s, e ∉ (purgeRhinoEvents now s).1 → isFutureTagged now e = true) := by
  have hL : ∀ ev ∈ (listFuture now s).filter (fun e => e.body.rhinoRowId != ""),
      ev ∈ s ∧ isFutureTagged now ev = true := by
    intro ev hev
    have h1 := List.mem_filter.1 hev
    have h2 := List.mem_filter.1 h1.1
    refine ⟨h2.1, ?_⟩
    simp only [isFutureTagged, Bool.and_eq_true]
    exact ⟨h2.2, h1.2⟩
  obtain ⟨R1, R2⟩ := purgeLoop_frame now s hnd hcol
    ((listFuture now s).filter (fun e => e.body.rhinoRowId != ""))
    s (List.Sublist.refl s) hL
  refine ⟨R1, R2, ?_⟩
  intro e he hnot
  by_contra hFT
  simp only [Bool.not_eq_true] at hFT
  exact hnot (R2 e he hFT)

end ScheduleExport

namespace ScheduleExport

/-! ## Supporting facts for the identity function -/

/-- Lowercase hexadecimal character test. -/
def isLowerHex (c : Char) : Bool := c.isDigit || ('a' ≤ c && c ≤ 'f')

theorem hexDigit_isLowerHex (n : Nat) : isLowerHex (hexDigit (n % 16)) = true := by
  have h : n % 16 < 16 := Nat.mod_lt _ (by decide)
  have hball : ∀ m < 16, isLowerHex (hexDigit m) = true := by decide
  exact hball _ h

theorem wordHex_isLowerHex (w : Nat) : ∀ c ∈ wordHex w, isLowerHex c = true := by
  intro c hc
  simp only [wordHex, List.mem_cons, List.not_mem_nil, or_false] at hc
  rcases hc with rfl | rfl | rfl | rfl | rfl | rfl | rfl | rfl <;>
    exact hexDigit_isLowerHex _

theorem sha256hexChars_length (msg : List Nat) :
    (sha256hexChars msg).length = 64 := by
  simp [sha256hexChars, wordHex]

theorem sha256hexChars_hex (msg : List Nat) :
    ∀ c ∈ sha256hexChars msg, isLowerHex c = true := by
  intro c hc
  simp only [sha256hexChars, List.mem_append] at hc
  rcases hc with ((((((h | h) | h) | h) | h) | h) | h) | h <;>
    exact wordHex_isLowerHex _ _ h

end ScheduleExport

namespace ScheduleExport

/-! ## Claim theorems -/

/-- C7.  External id determinism: `deterministicIdFor` is a pure function of
the natural-key string — its value is fully determined by the key (same key
gives the same id, with no other inputs in its signature: no randomness,
time, or machine state), and for every key the id is a fixed-length
40-character lowercase-hexadecimal string. -/
theorem c7_deterministic_id (k : String) :
    (deterministicIdFor k).length = 40 ∧
    (∀ c ∈ (deterministicIdFor k).data, isLowerHex c = true) ∧
    ∀ k2 : String, k2 = k → deterministicIdFor k2 = deterministicIdFor k := by
  refine ⟨?_, ?_, fun k2 h => by rw [h]⟩
  · show ((sha256hexChars (utf8Bytes k)).take 40).length = 40
    rw [List.length_take, sha256hexChars_length]
    decide
  · intro c hc
    have hc2 : c ∈ (sha256hexChars (utf8Bytes k)).take 40 := hc
    exact sha256hexChars_hex _ c ((List.take_sublist 40 _).subset hc2)

/-- Witness for C7 at a concrete natural key. -/
theorem c7_deterministic_id_witness :
    deterministicIdFor "11/23/2025 | 08:00 | A | B | C | D" =
      deterministicIdFor "11/23/2025 | 08:00 | A | B | C | D" :=
  (c7_deterministic_id "11/23/2025 | 08:00 | A | B | C | D").2.2 _ rfl

/-- C3 counterexample: a `404` failure of the `update` call is not returned
as an error result — the shared `catch` block around `get` and `update`
routes it to the insert path, and a successful insert reports
`{action: "created"}`. -/
theorem c3_counterexample :
    syncEventCtl CallRes.ok (CallRes.err 404) CallRes.ok = "created" ∧
    syncEventCtl CallRes.ok (CallRes.err 404) CallRes.ok ≠ "error" := by
  exact ⟨rfl, by decide⟩

/-- C3 (amended).  Per-event upsert isolation: any non-`404` failure of the
`get` or `update` call, and any failure of the `insert` call, is captured
and returned as an `{action: "error"}` result; a `404` from the `get` (or
from the `update`) routes to the insert path instead; every call-outcome
combination returns one of `created`/`updated`/`error` (so `syncEvent` never
throws), and the upsert loop produces one result per desired event — one
bad event does not remove the rest of the batch. -/
theorem c3_per_event_isolation :
    (∀ c, c ≠ 404 → ∀ u i, syncEventCtl (CallRes.err c) u i = "error") ∧
    (∀ c, c ≠ 404 → ∀ i, syncEventCtl CallRes.ok (CallRes.err c) i = "error") ∧
    (∀ u c, syncEventCtl (CallRes.err 404) u (CallRes.err c) = "error") ∧
    (∀ c, syncEventCtl CallRes.ok (CallRes.err 404) (CallRes.err c) = "error") ∧
    (∀ g u i, syncEventCtl g u i = "created" ∨ syncEventCtl g u i = "updated" ∨
      syncEventCtl g u i = "error") ∧
    (∀ oracle, (syncBatchCtl oracle).length = oracle.length) := by
  refine ⟨?_, ?_, ?_, ?_, ?_, ?_⟩
  · intro c hc u i
    simp [syncEventCtl, hc]
  · intro c hc i
    simp [syncEventCtl, hc]
  · intro u i
    simp [syncEventCtl]
  · intro c
    simp [syncEventCtl]
  · intro g u i
    cases g with
    | ok =>
      cases u with
      | ok => simp [syncEventCtl]
      | err c =>
        by_cases hc : (c == 404) = true <;> cases i <;> simp [syncEventCtl, hc]
    | err c =>
      by_cases hc : (c == 404) = true <;> cases i <;> simp [syncEventCtl, hc]
  · intro oracle
    simp [syncBatchCtl]

/-- Witness for C3's amended theorem at concrete call outcomes. -/
theorem c3_per_event_isolation_witness :
    syncEventCtl (CallRes.err 500) CallRes.ok CallRes.ok = "error" ∧
    syncEventCtl CallRes.ok (CallRes.err 500) CallRes.ok = "error" :=
  ⟨c3_per_event_isolation.1 500 (by decide) CallRes.ok CallRes.ok,
   c3_per_event_isolation.2.1 500 (by decide) CallRes.ok⟩

/-- C4.  Purge failure is fatal: in a purge iteration, a non-`404` failure
of the deterministic-id delete is propagated unchanged (the fallback is not
consulted); only a `404` triggers the fallback delete by the event's own
remote id, whose success completes the iteration and whose failure is
propagated; and in the purge loop the first raising iteration aborts the
loop with that error, whatever deletes would come later. -/
theorem c4_purge_failure_fatal :
    (∀ c, c ≠ 404 → ∀ d2, purgeDeleteStepCtl (CallRes.err c) d2 = some c) ∧
    (purgeDeleteStepCtl (CallRes.err 404) CallRes.ok = none) ∧
    (∀ c2, purgeDeleteStepCtl (CallRes.err 404) (CallRes.err c2) = some c2) ∧
    (∀ d2 d2', purgeDeleteStepCtl CallRes.ok d2 = purgeDeleteStepCtl CallRes.ok d2') ∧
    (∀ pre c d2 rest, (∀ x ∈ pre, purgeDeleteStepCtl x.1 x.2 = none) →
      c ≠ 404 →
      purgeLoopCtl (pre ++ (CallRes.err c, d2) :: rest) = some c) := by
  refine ⟨?_, rfl, fun c2 => rfl, fun d2 d2' => rfl, ?_⟩
  · intro c hc d2
    simp [purgeDeleteStepCtl, hc]
  · intro pre
    induction pre with
    | nil =>
      intro c d2 rest _ hc
      simp [purgeLoopCtl, purgeDeleteStepCtl, hc]
    | cons x pre ih =>
      intro c d2 rest hok hc
      have hx : purgeDeleteStepCtl x.1 x.2 = none :=
        hok x (List.mem_cons_self x pre)
      simp only [List.cons_append, purgeLoopCtl, hx]
      exact ih c d2 rest (fun y hy => hok y (List.mem_cons_of_mem x hy)) hc

/-- Witness for C4 at concrete call outcomes. -/
theorem c4_purge_failure_fatal_witness :
    purgeDeleteStepCtl (CallRes.err 500) CallRes.ok = some 500 ∧
    purgeLoopCtl [(CallRes.ok, CallRes.ok), (CallRes.err 500, CallRes.ok),
      (CallRes.ok, CallRes.ok)] = some 500 :=
  ⟨c4_purge_failure_fatal.1 500 (by decide) CallRes.ok,
   c4_purge_failure_fatal.2.2.2.2 [(CallRes.ok, CallRes.ok)] 500 CallRes.ok
     [(CallRes.ok, CallRes.ok)] (by intro x hx; simp at hx; rw [hx]; rfl)
     (by decide)⟩

/-- The spec's worked cancellation example. -/
def ghsaEntry : ScheduleEntry :=
  { date := "11/23/2025", callTime := "08:00",
    «show» := "CANCELLED (C) GHSA CHAMPIONSHIP", venue := "", location := "",
    client := "", type := "", position := "", details := "", status := "",
    notes := "", isCallCancelled := false }

/-- C6.  Cancellation filter: `isEventCancelled` returns `true` exactly when
the dedicated call-cancelled flag is set, or the lower-cased `show` field
contains `"cancelled"`, or the lower-cased `status` field contains
`"called out"`; a cancelled entry never survives the desired-set filter
`events.filter(e => !isEventCancelled(e))`; and the spec's example entry
(`show = "CANCELLED (C) GHSA CHAMPIONSHIP"`, `isCallCancelled = false`) is
excluded. -/
theorem c6_cancellation_filter :
    (∀ e : ScheduleEntry, isEventCancelled e = true ↔
      (e.isCallCancelled = true ∨
        List.IsInfix "cancelled".data (jsToLower e.«show»).data ∨
        List.IsInfix "called out".data (jsToLower e.status).data)) ∧
    (∀ (l : List ScheduleEntry) (e : ScheduleEntry), isEventCancelled e = true →
      e ∉ l.filter (fun x => !(isEventCancelled x))) ∧
    isEventCancelled ghsaEntry = true := by
  refine ⟨?_, ?_, by decide⟩
  · intro e
    cases hcc : e.isCallCancelled <;>
      simp [isEventCancelled, hcc, strIncludes, hasSubChars_iff]
  · intro l e hc hmem
    have h2 := (List.mem_filter.1 hmem).2
    rw [hc] at h2
    cases h2

/-- Witness for C6 at a concrete list: the example entry is dropped from the
desired set. -/
theorem c6_cancellation_filter_witness :
    ghsaEntry ∉ [ghsaEntry].filter (fun x => !(isEventCancelled x)) :=
  c6_cancellation_filter.2.1 [ghsaEntry] ghsaEntry (by decide)

/-- C8.  Event title rule: the summary is `"UNCONFIRMED => " ++ show`
(no time) exactly when `status` lower-cased equals `"called"`; otherwise it
is the formatted start time (call time minus 30 minutes, rendered
`H[:MM]am/pm` through `formatTimeForTitle`), a space, and `show`; with the
spec's format examples `"08:00" -> 8am`, `"12:00" -> 12pm`,
`"00:00" -> 12am`, `"14:15" -> 2:15pm`. -/
theorem c8_title_rule :
    (∀ e : ScheduleEntry, (toGoogleEvent e).summary =
      (if jsToLower e.status == "called" then "UNCONFIRMED => " ++ e.«show»
       else formatTimeForTitle
           (pad (getHours (parsedCallMinutes e - 30)) ++ ":" ++
             pad (getMinutes (parsedCallMinutes e - 30))) ++ " " ++ e.«show»)) ∧
    formatTimeForTitle "08:00" = "8am" ∧
    formatTimeForTitle "12:00" = "12pm" ∧
    formatTimeForTitle "00:00" = "12am" ∧
    formatTimeForTitle "14:15" = "2:15pm" := by
  refine ⟨?_, by decide, by decide, by decide, by decide⟩
  intro e
  by_cases h : (jsToLower e.status == "called") = true <;>
    simp [toGoogleEvent, h]

/-- Two distinct schedule entries whose six key fields join, with the
unescaped `" | "` delimiter, to the same natural key. -/
def pipeEntryA : ScheduleEntry :=
  { date := "01/02/2025", callTime := "08:00", «show» := "A | B",
    venue := "C", location := "", client := "", type := "T", position := "P",
    details := "", status := "", notes := "", isCallCancelled := false }

/-- The companion entry: the `" | "` moved from `show` into `venue`. -/
def pipeEntryB : ScheduleEntry :=
  { pipeEntryA with «show» := "A", venue := "B | C" }

/-- C10.  Natural-key non-injectivity: the six key fields are joined with
the unescaped delimiter `" | "`, so two entries that differ in `show` and
`venue` (one containing `" | "` inside a field) produce the same `rowId`
and hence the same deterministic external id — two distinct real-world
shifts collapse into one remote event. -/
theorem c10_natural_key_collision :
    pipeEntryA.«show» ≠ pipeEntryB.«show» ∧
    pipeEntryA ≠ pipeEntryB ∧
    (toGoogleEvent pipeEntryA).rowId = (toGoogleEvent pipeEntryB).rowId ∧
    deterministicIdFor (toGoogleEvent pipeEntryA).rowId =
      deterministicIdFor (toGoogleEvent pipeEntryB).rowId :=
  ⟨by decide, by decide, by decide,
   congrArg deterministicIdFor (by decide)⟩

end ScheduleExport

namespace ScheduleExport

/-- The spec's worked time-derivation example entry
(`date = "11/23/2025"`, `callTime = "08:00"`). -/
def nov23entry : ScheduleEntry :=
  { date := "11/23/2025", callTime := "08:00", «show» := "SHOW", venue := "",
    location := "", client := "", type := "", position := "", details := "",
    status := "", notes := "", isCallCancelled := false }

/-- The spec's midnight-rollunder example entry (`callTime = "00:30"`). -/
def nov23midnight : ScheduleEntry :=
  { nov23entry with callTime := "00:30" }

/-- C5.  Event time derivation: for every entry with parseable date and
call time, the produced start string denotes the instant `callTime − 30
minutes` and the produced end string denotes `callTime + 5 hours` (computed
from the call time, so the 30-minute buffer does not extend the end); in
particular `11/23/2025 08:00` gives start `2025-11-23T07:30:00` and end
`2025-11-23T13:00:00`, and `00:30` on `11/23/2025` gives start
`2025-11-23T00:00:00` (same day) and end `2025-11-23T05:30:00`. -/
theorem c5_event_time_derivation (entry : ScheduleEntry)
    (ms ds ys hs mins : String) (M Dd Y H Mi : Nat)
    (hdate : jsSplit entry.date '/' = [ms, ds, ys])
    (hm : decToNat? ms.data = some M) (hd : decToNat? ds.data = some Dd)
    (hy : decToNat? ys.data = some Y)
    (htime : jsSplit entry.callTime ':' = [hs, mins])
    (hh : decToNat? hs.data = some H) (hmi : decToNat? mins.data = some Mi) :
    (∃ y m d h mi : Int, 0 ≤ h ∧ h < 24 ∧ 0 ≤ mi ∧ mi < 60 ∧
      minutesOfCivil y m d h mi =
        minutesOfCivil (Y : Int) (M : Int) (Dd : Int) (H : Int) (Mi : Int) - 30 ∧
      (toGoogleEvent entry).start = formatDateTimeForTimezone y m d h mi) ∧
    (∃ y m d h mi : Int, 0 ≤ h ∧ h < 24 ∧ 0 ≤ mi ∧ mi < 60 ∧
      minutesOfCivil y m d h mi =
        minutesOfCivil (Y : Int) (M : Int) (Dd : Int) (H : Int) (Mi : Int) + 300 ∧
      (toGoogleEvent entry).«end» = formatDateTimeForTimezone y m d h mi) ∧
    (toGoogleEvent nov23entry).start = "2025-11-23T07:30:00" ∧
    (toGoogleEvent nov23entry).«end» = "2025-11-23T13:00:00" ∧
    (toGoogleEvent nov23midnight).start = "2025-11-23T00:00:00" ∧
    (toGoogleEvent nov23midnight).«end» = "2025-11-23T05:30:00" := by
  have hc : parsedCallMinutes entry =
      minutesOfCivil (Y : Int) (M : Int) (Dd : Int) (H : Int) (Mi : Int) := by
    simp [parsedCallMinutes, hdate, htime, jsNumber, hm, hd, hy, hh, hmi]
  refine ⟨?_, ?_, by decide, by decide, by decide, by decide⟩
  · obtain ⟨r1, r2, r3, r4⟩ :=
      getHours_getMinutes_range (parsedCallMinutes entry - 30)
    refine ⟨getFullYear (parsedCallMinutes entry - 30),
      getMonthNum (parsedCallMinutes entry - 30),
      getDate (parsedCallMinutes entry - 30),
      getHours (parsedCallMinutes entry - 30),
      getMinutes (parsedCallMinutes entry - 30),
      r1, r2, r3, r4, ?_, ?_⟩
    · rw [minutesOfCivil_getters, hc]
    · rfl
  · obtain ⟨r1, r2, r3, r4⟩ :=
      getHours_getMinutes_range (parsedCallMinutes entry + 300)
    refine ⟨getFullYear (parsedCallMinutes entry + 300),
      getMonthNum (parsedCallMinutes entry + 300),
      getDate (parsedCallMinutes entry + 300),
      getHours (parsedCallMinutes entry + 300),
      getMinutes (parsedCallMinutes entry + 300),
      r1, r2, r3, r4, ?_, ?_⟩
    · rw [minutesOfCivil_getters, hc]
    · rfl

/-- Witness for C5 at the spec's example entry. -/
theorem c5_event_time_derivation_witness :
    ∃ y m d h mi : Int, 0 ≤ h ∧ h < 24 ∧ 0 ≤ mi ∧ mi < 60 ∧
      minutesOfCivil y m d h mi =
        minutesOfCivil 2025 11 23 8 0 - 30 ∧
      (toGoogleEvent nov23entry).start = formatDateTimeForTimezone y m d h mi :=
  (c5_event_time_derivation nov23entry "11" "23" "2025" "08" "00" 11 23 2025 8 0
    (by decide) (by decide) (by decide) (by decide) (by decide) (by decide)
    (by decide)).1

/-- A sample desired event for the C9 witness. -/
def sampleDesired : DesiredEvent :=
  { summary := "s", location := "", description := "", start := 100,
    «end» := 400, status := "", rowId := "k" }

/-- C9.  Owner-tag write invariant: the body `syncEvent` writes — on the
update path as well as the insert path — is stored under the deterministic
id and carries `extendedProperties.private.rhinoRowId` equal to the desired
event's `rowId`; `normalizeEventBody` preserves the row id verbatim; every
event produced by `toGoogleEvent` has a non-empty `rowId` (a `" | "`-join of
six fields); and hence the written event passes the rhino-tag filter used by
`purgeRhinoEvents` and `dedupeRhino`. -/
theorem c9_owner_tag_invariant :
    (∀ (s : CalState) (d : DesiredEvent),
      getEv (syncEvent s d) (deterministicIdFor d.rowId) =
        some (mkRhinoEvent d)) ∧
    (∀ d : DesiredEvent, (normalizeEventBody d).rhinoRowId = d.rowId) ∧
    (∀ entry : ScheduleEntry, (toGoogleEvent entry).rowId ≠ "") ∧
    (∀ (s : CalState) (d : DesiredEvent), d.rowId ≠ "" →
      mkRhinoEvent d ∈ (syncEvent s d).filter
        (fun e => e.body.rhinoRowId != "")) := by
  have h1 : ∀ (s : CalState) (d : DesiredEvent),
      getEv (syncEvent s d) (deterministicIdFor d.rowId) =
        some (mkRhinoEvent d) := by
    intro s d
    rcases hg : getEv s (deterministicIdFor d.rowId) with _ | x
    · rw [syncEvent_none hg, getEv_append_none hg]
      simp [getEv, List.find?_cons, mkRhinoEvent]
    · rw [syncEvent_some hg]
      exact getEv_updateEv _ (by rw [hg]; rfl)
  refine ⟨h1, fun d => rfl, ?_, ?_⟩
  · intro entry h
    have hlen := congrArg String.length h
    simp [toGoogleEvent, jsJoin, String.length_append] at hlen
    exact absurd hlen.1.2 (by decide)
  · intro s d hd
    refine List.mem_filter.2 ⟨List.mem_of_find?_eq_some (h1 s d), ?_⟩
    simpa [mkRhinoEvent, normalizeEventBody, bne_iff_ne] using hd

/-- Witness for C9 at a concrete desired event and the empty calendar. -/
theorem c9_owner_tag_invariant_witness :
    mkRhinoEvent sampleDesired ∈ (syncEvent [] sampleDesired).filter
      (fun e => e.body.rhinoRowId != "") :=
  c9_owner_tag_invariant.2.2.2 [] sampleDesired (by decide)

end ScheduleExport

namespace ScheduleExport

/-- An untagged past event whose remote id happens to equal the
deterministic id of the key `"K"`. -/
def collidingPastEvent : GEvent :=
  ⟨deterministicIdFor "K",
   { summary := "external", location := "", description := "", start := 0,
     «end» := 1, status := "confirmed", rhinoRowId := "" }⟩

/-- A future rhino-tagged event storing key `"K"` under a legacy remote id
(an id differing from the deterministic id of its key). -/
def legacyRhinoEvent : GEvent :=
  ⟨"legacyid1",
   { summary := "shift", location := "", description := "", start := 20,
     «end» := 21, status := "confirmed", rhinoRowId := "K" }⟩

/-- A plain past untagged event with an ordinary id. -/
def plainPastEvent : GEvent :=
  ⟨"plainid2",
   { summary := "other", location := "", description := "", start := 3,
     «end» := 4, status := "confirmed", rhinoRowId := "" }⟩

/-- C2 counterexample: with a future tagged event stored under a legacy id
and an untagged past event that holds the deterministic id of the tagged
event's key, the purge deletes the untagged past event (and leaves the
future tagged event in place) — refuting the claim as universally
quantified over remote states. -/
theorem c2_counterexample :
    collidingPastEvent.body.rhinoRowId = "" ∧
    collidingPastEvent.body.start ≤ 10 ∧
    purgeRhinoEvents 10 [collidingPastEvent, legacyRhinoEvent] =
      ([legacyRhinoEvent], none) ∧
    collidingPastEvent ∉
      (purgeRhinoEvents 10 [collidingPastEvent, legacyRhinoEvent]).1 ∧
    legacyRhinoEvent ∈
      (purgeRhinoEvents 10 [collidingPastEvent, legacyRhinoEvent]).1 :=
  ⟨rfl, by decide, by decide, by decide, by decide⟩

/-- C2 (amended).  Purge frame property: for every remote state whose ids
are unique and in which no event outside the future-owner-tagged set holds
the deterministic id of a future owner-tagged event's stored key,
`purgeRhinoEvents` only removes events (never edits one), every untagged
event and every past event is still present afterwards, and anything it did
delete was a future owner-tagged event. -/
theorem c2_purge_frame (now : Nat) (s : CalState)
    (hnd : (s.map GEvent.id).Nodup)
    (hcol : ∀ e ∈ s, ∀ f ∈ s, isFutureTagged now f = true →
      e.id = deterministicIdFor f.body.rhinoRowId →
      isFutureTagged now e = true) :
    (purgeRhinoEvents now s).1.Sublist s ∧
    (∀ e ∈ s, e.body.rhinoRowId = "" → e ∈ (purgeRhinoEvents now s).1) ∧
    (∀ e ∈ s, e.body.start ≤ now → e ∈ (purgeRhinoEvents now s).1) ∧
    (∀ e ∈ s, e ∉ (purgeRhinoEvents now s).1 →
      now < e.body.start ∧ e.body.rhinoRowId ≠ "") := by
  obtain ⟨R1, R2, R3⟩ := purgeRhino_frame now s hnd hcol
  refine ⟨R1, ?_, ?_, ?_⟩
  · intro e he htag
    apply R2 e he
    simp [isFutureTagged, htag]
  · intro e he hpast
    apply R2 e he
    have hlt : ¬(now < e.body.start) := by omega
    simp [isFutureTagged, hlt]
  · intro e he hnot
    have h := R3 e he hnot
    simpa [isFutureTagged, Bool.and_eq_true, decide_eq_true_eq, bne_iff_ne]
      using h

/-- Witness for C2's amended theorem on a concrete calendar. -/
theorem c2_purge_frame_witness :
    plainPastEvent ∈
      (purgeRhinoEvents 10 [legacyRhinoEvent, plainPastEvent]).1 :=
  (c2_purge_frame 10 [legacyRhinoEvent, plainPastEvent]
      (by decide) (by decide)).2.1 plainPastEvent (by decide) rfl

/-- C1.  Idempotent reconciliation without duplication: take a remote state
with unique ids in which every future owner-tagged event already carries its
deterministic id, no event outside the future-owner-tagged set carries a
batch id or a batch key (no external interference), and a desired batch of
future events with non-empty keys on which the deterministic id is
collision-free.  Then the cycle (purge, then upsert each desired event)
succeeds; running it a second time on its own output succeeds and returns
exactly the same remote state; and after the cycle exactly one remote event
carries each distinct natural key occurring in the batch. -/
theorem c1_idempotent_reconciliation (now : Nat) (s0 : CalState)
    (D : List DesiredEvent)
    (hnodup : (s0.map GEvent.id).Nodup)
    (hclean : ∀ e ∈ s0, now < e.body.start → e.body.rhinoRowId ≠ "" →
      e.id = deterministicIdFor e.body.rhinoRowId)
    (hsep : ∀ e ∈ s0, isFutureTagged now e = false →
      ∀ d ∈ D, e.id ≠ deterministicIdFor d.rowId ∧ e.body.rhinoRowId ≠ d.rowId)
    (hkeys : ∀ d ∈ D, d.rowId ≠ "")
    (hfut : ∀ d ∈ D, now < d.start)
    (hinj : ∀ d1 ∈ D, ∀ d2 ∈ D,
      deterministicIdFor d1.rowId = deterministicIdFor d2.rowId →
      d1.rowId = d2.rowId) :
    (runCycle now s0 D).2 = none ∧
    runCycle now (runCycle now s0 D).1 D = ((runCycle now s0 D).1, none) ∧
    (∀ k, (∃ d ∈ D, d.rowId = k) →
      (runCycle now s0 D).1.countP (fun e => e.body.rhinoRowId == k) = 1) := by
  have hp1 := purgeRhino_clean now s0 hnodup hclean
  set p := s0.filter (fun e => !(isFutureTagged now e)) with hpdef
  have hpmem : ∀ e ∈ p, e ∈ s0 ∧ isFutureTagged now e = false := by
    intro e he
    have h := List.mem_filter.1 he
    exact ⟨h.1, by simpa using h.2⟩
  have hpsep : ∀ d ∈ D, deterministicIdFor d.rowId ∉ p.map GEvent.id := by
    intro d hd hmem
    obtain ⟨e, he, heq⟩ := List.mem_map.1 hmem
    exact (hsep e (hpmem e he).1 (hpmem e he).2 d hd).1 heq
  have hsplit : syncAll p D = p ++ syncAll [] D := by
    have h := syncAll_append D p [] hpsep
    simpa using h
  set qinf := syncAll ([] : CalState) D with hqdef
  obtain ⟨I1, I2, I3, I4, I5⟩ := syncAll_inv D [] []
    (by simp) (by intro e he; exact absurd he (List.not_mem_nil e))
  have hqmem : ∀ e ∈ qinf, ∃ d, d ∈ D ∧ e = mkRhinoEvent d := by
    intro e he
    obtain ⟨d, hd, hEq⟩ := I2 e he
    rcases hd with h | h
    · exact absurd h (List.not_mem_nil d)
    · exact ⟨d, h, hEq⟩
  have hqid : ∀ i ∈ qinf.map GEvent.id,
      ∃ d ∈ D, i = deterministicIdFor d.rowId := by
    intro i hi
    rcases I5 i hi with h | h
    · exact absurd h (List.not_mem_nil i)
    · exact h
  have hrun1 : runCycle now s0 D = (p ++ qinf, none) := by
    simp only [runCycle, hp1]
    rw [hsplit]
  have hpnd : (p.map GEvent.id).Nodup :=
    ((List.filter_sublist s0).map GEvent.id).nodup hnodup
  have hdisj : ∀ i ∈ p.map GEvent.id, i ∉ qinf.map GEvent.id := by
    intro i hip hiq
    obtain ⟨d, hd, hEq⟩ := hqid i hiq
    obtain ⟨e, he, heq⟩ := List.mem_map.1 hip
    exact (hsep e (hpmem e he).1 (hpmem e he).2 d hd).1 (heq.trans hEq)
  have hs1nd : ((p ++ qinf).map GEvent.id).Nodup := by
    rw [List.map_append, List.nodup_append]
    exact ⟨hpnd, I1, hdisj⟩
  have hqFT : ∀ e ∈ qinf, isFutureTagged now e = true := by
    intro e he
    obtain ⟨d, hd, hEq⟩ := hqmem e he
    rw [hEq]
    simp only [isFutureTagged, mkRhinoEvent, normalizeEventBody,
      Bool.and_eq_true, decide_eq_true_eq, bne_iff_ne, ne_eq]
    exact ⟨hfut d hd, hkeys d hd⟩
  have hs1clean : ∀ e ∈ p ++ qinf, now < e.body.start →
      e.body.rhinoRowId ≠ "" → e.id = deterministicIdFor e.body.rhinoRowId := by
    intro e he hst htag
    rcases List.mem_append.1 he with hep | heq
    · exfalso
      have hFT := (hpmem e hep).2
      have hFT2 : isFutureTagged now e = true := by
        simp only [isFutureTagged, Bool.and_eq_true, decide_eq_true_eq,
          bne_iff_ne, ne_eq]
        exact ⟨hst, htag⟩
      rw [hFT2] at hFT
      cases hFT
    · obtain ⟨d, hd, hEq⟩ := hqmem e heq
      rw [hEq]
      rfl
  have hp2 := purgeRhino_clean now (p ++ qinf) hs1nd hs1clean
  have hfilp : p.filter (fun e => !(isFutureTagged now e)) = p := by
    rw [List.filter_eq_self]
    intro e he
    simp [(hpmem e he).2]
  have hfilq : qinf.filter (fun e => !(isFutureTagged now e)) = [] := by
    rw [List.filter_eq_nil_iff]
    intro e he
    simp [hqFT e he]
  have hpurge2 : purgeRhinoEvents now (p ++ qinf) = (p, none) := by
    rw [hp2]
    rw [List.filter_append, hfilp, hfilq, List.append_nil]
  have hrun2 : runCycle now (p ++ qinf) D = (p ++ qinf, none) := by
    simp only [runCycle, hpurge2]
    rw [hsplit]
  have hcnt : ∀ k, (∃ d ∈ D, d.rowId = k) →
      (p ++ qinf).countP (fun e => e.body.rhinoRowId == k) = 1 := by
    intro k hk
    rw [List.countP_append]
    have h0 : p.countP (fun e => e.body.rhinoRowId == k) = 0 := by
      rw [List.countP_eq_zero]
      intro e he hbe
      obtain ⟨d, hd, hkd⟩ := hk
      have htg : e.body.rhinoRowId = k := by simpa using hbe
      exact (hsep e (hpmem e he).1 (hpmem e he).2 d hd).2 (htg.trans hkd.symm)
    have h1 := count_unique D qinf hinj I1 hqmem I3 k hk
    omega
  rw [hrun1]
  exact ⟨rfl, hrun2, hcnt⟩

/-- Witness for C1: the empty calendar and a one-event batch. -/
theorem c1_idempotent_reconciliation_witness :
    (runCycle 0 [] [sampleDesired]).2 = none ∧
    runCycle 0 (runCycle 0 [] [sampleDesired]).1 [sampleDesired] =
      ((runCycle 0 [] [sampleDesired]).1, none) ∧
    (∀ k, (∃ d ∈ [sampleDesired], d.rowId = k) →
      (runCycle 0 [] [sampleDesired]).1.countP
        (fun e => e.body.rhinoRowId == k) = 1) :=
  c1_idempotent_reconciliation 0 [] [sampleDesired]
    (by decide)
    (by intro e he; exact absurd he (List.not_mem_nil e))
    (by intro e he; exact absurd he (List.not_mem_nil e))
    (by intro d hd; rw [List.mem_singleton.1 hd]; decide)
    (by intro d hd; rw [List.mem_singleton.1 hd]; decide)
    (by
      intro d1 h1 d2 h2 _
      rw [List.mem_singleton.1 h1, List.mem_singleton.1 h2])

end ScheduleExport
